import Mathlib

/-!
Verification development for the temp-box repository: a shallow embedding of
the account-lifecycle, cleanup and local-persistence logic, together with
theorems settling the stated properties of those components.

Modelling conventions:
* JS `Date` values are modelled by `Int` milliseconds since the epoch
  (comparisons between `Date`s in the source compile down to comparisons of
  those millisecond values).
* `localStorage` is modelled at the typed level by the `Store` structure; the
  account list is held in its persisted form (`StoredAccountJson`, with date
  fields as ISO strings) so that the serialize/parse round trip performed by
  `saveAccounts`/`getStoredAccounts` is explicit in the model.  A raw
  string-level model of the two reads is given separately for the
  malformed-data properties.
* Asynchronous remote calls are modelled by explicit outcome environments
  (which attempt succeeds or fails); the event-loop interleaving points do not
  affect any property stated here, so each operation is modelled as one atomic
  state transition that also emits the trace of external calls it makes.
-/

/-- Model of a JS ISO-8601 timestamp string as produced by `Date.toISOString`.
`toISOString` is injective at millisecond precision and `new Date(iso)` parses
such a string back to exactly that instant, so the string is represented by
the instant it denotes. -/
structure IsoString where
  instant : Int
deriving Repr, DecidableEq

/-- `JSON.stringify` serializes a `Date` through `toISOString`. -/
def dateToISOString (d : Int) : IsoString := ⟨d⟩

/-- `new Date(iso)` recovers the instant an ISO string denotes. -/
def parseISODate (s : IsoString) : Int := s.instant

/-- The fields of the remote account record that the storage layer uses. -/
structure MailAccount where
  id : String
  address : String
deriving Repr, DecidableEq

/-- `StoredAccount` from the storage service (dates as instants). -/
structure StoredAccount where
  id : String
  address : String
  password : String
  token : String
  createdAt : Int
  expiresAt : Int
  deleted : Bool
  lastAccessedAt : Int
  messageCount : Nat
  cleanupAttempts : Nat
deriving Repr, DecidableEq

/-- The persisted (JSON) form of a `StoredAccount`: date fields are ISO
strings. -/
structure StoredAccountJson where
  id : String
  address : String
  password : String
  token : String
  createdAt : IsoString
  expiresAt : IsoString
  deleted : Bool
  lastAccessedAt : IsoString
  messageCount : Nat
  cleanupAttempts : Nat
deriving Repr, DecidableEq

/-- Serialization of one account record (`JSON.stringify` of the record,
dates via `toISOString`). -/
def encodeStoredAccount (a : StoredAccount) : StoredAccountJson :=
  { id := a.id, address := a.address, password := a.password, token := a.token
    createdAt := dateToISOString a.createdAt
    expiresAt := dateToISOString a.expiresAt
    deleted := a.deleted
    lastAccessedAt := dateToISOString a.lastAccessedAt
    messageCount := a.messageCount, cleanupAttempts := a.cleanupAttempts }

/-- The `map` in `getStoredAccounts` that rebuilds `Date` fields with
`new Date(...)`. -/
def decodeStoredAccount (a : StoredAccountJson) : StoredAccount :=
  { id := a.id, address := a.address, password := a.password, token := a.token
    createdAt := parseISODate a.createdAt
    expiresAt := parseISODate a.expiresAt
    deleted := a.deleted
    lastAccessedAt := parseISODate a.lastAccessedAt
    messageCount := a.messageCount, cleanupAttempts := a.cleanupAttempts }

/-- The audit action tags of `AuditLogEntry`. -/
inductive AuditAction where
  | CREATED
  | ACCESSED
  | EXPIRED
  | DELETED
  | CLEANUP_ATTEMPTED
  | CLEANUP_FAILED
deriving Repr, DecidableEq

/-- `AuditLogEntry` from the storage service (timestamp as an instant). -/
structure AuditLogEntry where
  id : String
  accountId : String
  action : AuditAction
  timestamp : Int
  details : Option String
deriving Repr, DecidableEq

/-- `CleanupStats` from the storage service. -/
structure CleanupStats where
  totalAccounts : Nat
  expiredAccounts : Nat
  deletedAccounts : Nat
  failedDeletions : Nat
  lastCleanupRun : Int
deriving Repr, DecidableEq

/-- The localStorage slice owned by the storage service: the value under the
accounts key (in persisted form), the audit log and the cleanup stats. -/
structure Store where
  accounts : List StoredAccountJson
  auditLog : List AuditLogEntry
  stats : Option CleanupStats
deriving Repr, DecidableEq

def ACCOUNTS_KEY : String := "tempbox-accounts"
def AUDIT_LOG_KEY : String := "tempbox-audit-log"
def CLEANUP_STATS_KEY : String := "tempbox-cleanup-stats"
def MAX_AUDIT_ENTRIES : Nat := 1000
def MAX_ACCOUNTS_STORED : Nat := 50

/-- `getStoredAccounts`: parse the persisted list, rebuilding the date
fields. -/
def getStoredAccounts (st : Store) : List StoredAccount :=
  st.accounts.map decodeStoredAccount

/-- `saveAccounts`: `JSON.stringify` the list under the accounts key. -/
def saveAccounts (accounts : List StoredAccount) (st : Store) : Store :=
  { st with accounts := accounts.map encodeStoredAccount }

/-- The comparator `(a, b) => b.createdAt.getTime() - a.createdAt.getTime()`
(descending by creation time).  `Array.prototype.sort` is a stable sort, and
a stable sort is determined extensionally by its comparator, so it is
modelled by stable insertion sort. -/
def createdDesc (a b : StoredAccount) : Prop :=
  b.createdAt ≤ a.createdAt

instance : DecidableRel createdDesc :=
  fun a b => inferInstanceAs (Decidable (b.createdAt ≤ a.createdAt))

instance : IsTotal StoredAccount createdDesc :=
  ⟨fun a b => (le_total b.createdAt a.createdAt).imp id id⟩

instance : IsTrans StoredAccount createdDesc :=
  ⟨fun _ _ _ h1 h2 => le_trans h2 h1⟩

/-- The comparator `(a, b) => b.timestamp.getTime() - a.timestamp.getTime()`
used on the audit log. -/
def timestampDesc (a b : AuditLogEntry) : Prop :=
  b.timestamp ≤ a.timestamp

instance : DecidableRel timestampDesc :=
  fun a b => inferInstanceAs (Decidable (b.timestamp ≤ a.timestamp))

instance : IsTotal AuditLogEntry timestampDesc :=
  ⟨fun a b => (le_total b.timestamp a.timestamp).imp id id⟩

instance : IsTrans AuditLogEntry timestampDesc :=
  ⟨fun _ _ _ h1 h2 => le_trans h2 h1⟩

/-- `addAuditLogEntry`: append an entry, then keep only the
`MAX_AUDIT_ENTRIES` most recent entries by timestamp.  The generated entry id
(`Date.now()` plus a random suffix) is modelled deterministically from the
clock; no property here depends on it. -/
def addAuditLogEntry (accountId : String) (action : AuditAction)
    (details : Option String) (now : Int) (st : Store) : Store :=
  let entry : AuditLogEntry :=
    { id := toString now ++ "-id", accountId := accountId, action := action
      timestamp := now, details := details }
  let auditLog := st.auditLog ++ [entry]
  let trimmedLog := (List.insertionSort timestampDesc auditLog).take MAX_AUDIT_ENTRIES
  { st with auditLog := trimmedLog }

/-- `storeAccount`: build the record, drop any stored record with the same id,
append, keep the `MAX_ACCOUNTS_STORED` most recent records by creation time,
persist, and log a CREATED audit entry.  Returns the built record. -/
def storeAccount (account : MailAccount) (password token : String)
    (expiresAt : Int) (now : Int) (st : Store) : StoredAccount × Store :=
  let storedAccount : StoredAccount :=
    { id := account.id, address := account.address, password := password
      token := token, createdAt := now, expiresAt := expiresAt
      deleted := false, lastAccessedAt := now, messageCount := 0
      cleanupAttempts := 0 }
  let accounts := getStoredAccounts st
  let filteredAccounts := accounts.filter (fun a => a.id != account.id)
  let pushed := filteredAccounts ++ [storedAccount]
  let sortedAccounts := (List.insertionSort createdDesc pushed).take MAX_ACCOUNTS_STORED
  let st1 := saveAccounts sortedAccounts st
  let st2 := addAuditLogEntry account.id .CREATED
    (some ("Account created: " ++ account.address)) now st1
  (storedAccount, st2)

/-- The `findIndex` / mutate-in-place pattern used by the update operations:
modify the first element satisfying `p`, leave the rest unchanged. -/
def updateFirst (p : α → Bool) (f : α → α) : List α → List α
  | [] => []
  | x :: xs => if p x then f x :: xs else x :: updateFirst p f xs

/-- `updateAccountAccess`: bump `lastAccessedAt` and `messageCount` of the
first record with the given id (if present), persist, log ACCESSED. -/
def updateAccountAccess (accountId : String) (messageCount : Nat) (now : Int)
    (st : Store) : Store :=
  let accounts := getStoredAccounts st
  if accounts.any (fun a => a.id == accountId) then
    let accounts1 := updateFirst (fun a => a.id == accountId)
      (fun a => { a with lastAccessedAt := now, messageCount := messageCount })
      accounts
    addAuditLogEntry accountId .ACCESSED none now (saveAccounts accounts1 st)
  else st

/-- `markAccountDeleted`: set `deleted := true` on the first record with the
given id (if present), persist, log DELETED. -/
def markAccountDeleted (accountId : String) (now : Int) (st : Store) : Store :=
  let accounts := getStoredAccounts st
  if accounts.any (fun a => a.id == accountId) then
    let accounts1 := updateFirst (fun a => a.id == accountId)
      (fun a => { a with deleted := true }) accounts
    addAuditLogEntry accountId .DELETED (some "Account marked as deleted") now
      (saveAccounts accounts1 st)
  else st

/-- `getStoredAccount`: first stored record with the given id, else null. -/
def getStoredAccount (accountId : String) (st : Store) : Option StoredAccount :=
  (getStoredAccounts st).find? (fun a => a.id == accountId)

/-- `getExpiredAccounts`: stored records that are not deleted and whose expiry
instant is strictly before `now`. -/
def getExpiredAccounts (now : Int) (st : Store) : List StoredAccount :=
  (getStoredAccounts st).filter
    (fun account => !account.deleted && decide (account.expiresAt < now))

/-- `incrementCleanupAttempts`: bump the counter of the first record with the
given id (if present), persist, log CLEANUP_ATTEMPTED. -/
def incrementCleanupAttempts (accountId : String) (now : Int) (st : Store) :
    Store :=
  let accounts := getStoredAccounts st
  if accounts.any (fun a => a.id == accountId) then
    let accounts1 := updateFirst (fun a => a.id == accountId)
      (fun a => { a with cleanupAttempts := a.cleanupAttempts + 1 }) accounts
    addAuditLogEntry accountId .CLEANUP_ATTEMPTED none now
      (saveAccounts accounts1 st)
  else st

/-- `recordCleanupFailure`: log a CLEANUP_FAILED audit entry. -/
def recordCleanupFailure (accountId : String) (error : String) (now : Int)
    (st : Store) : Store :=
  addAuditLogEntry accountId .CLEANUP_FAILED (some error) now st

/-- `calculateCleanupStats`. -/
def calculateCleanupStats (now : Int) (st : Store) : CleanupStats :=
  let accounts := getStoredAccounts st
  { totalAccounts := accounts.length
    expiredAccounts := (accounts.filter (fun a => decide (a.expiresAt < now))).length
    deletedAccounts := (accounts.filter (fun a => a.deleted)).length
    failedDeletions :=
      (accounts.filter (fun a => decide (0 < a.cleanupAttempts) && !a.deleted)).length
    lastCleanupRun := now }

/-- `updateCleanupStats`: recompute and persist the stats snapshot. -/
def updateCleanupStats (now : Int) (st : Store) : Store :=
  { st with stats := some (calculateCleanupStats now st) }

/-- The 30-day retention window of `cleanupOldData`, in milliseconds (the
source computes it with calendar arithmetic via `setDate`; time-zone and DST
adjustments are not modelled). -/
def RETENTION_MS : Int := 30 * 86400000

/-- `cleanupOldData`: drop stored accounts created at or before the 30-day
cutoff, and audit entries at or before the cutoff, and persist both. -/
def cleanupOldData (now : Int) (st : Store) : Store :=
  let accounts := getStoredAccounts st
  let auditLog := st.auditLog
  let thirtyDaysAgo := now - RETENTION_MS
  let recentAccounts := accounts.filter (fun a => decide (thirtyDaysAgo < a.createdAt))
  let recentAuditEntries := auditLog.filter (fun e => decide (thirtyDaysAgo < e.timestamp))
  { saveAccounts recentAccounts st with auditLog := recentAuditEntries }

/-- `clearAllData`: remove every key the service owns. -/
def clearAllData (_st : Store) : Store :=
  { accounts := [], auditLog := [], stats := none }

/-- The mutating operations of the storage layer, for reasoning about
arbitrary operation sequences. -/
inductive StorageOp where
  | store (account : MailAccount) (password token : String) (expiresAt now : Int)
  | updateAccess (accountId : String) (messageCount : Nat) (now : Int)
  | markDeleted (accountId : String) (now : Int)
  | incrementAttempts (accountId : String) (now : Int)
  | recordFailure (accountId error : String) (now : Int)
  | cleanupOld (now : Int)
  | updateStats (now : Int)
  | clearAll

/-- Interpretation of one storage operation. -/
def StorageOp.apply : StorageOp → Store → Store
  | .store account password token expiresAt now, st =>
      (storeAccount account password token expiresAt now st).2
  | .updateAccess accountId messageCount now, st =>
      updateAccountAccess accountId messageCount now st
  | .markDeleted accountId now, st => markAccountDeleted accountId now st
  | .incrementAttempts accountId now, st => incrementCleanupAttempts accountId now st
  | .recordFailure accountId error now, st => recordCleanupFailure accountId error now st
  | .cleanupOld now, st => cleanupOldData now st
  | .updateStats now, st => updateCleanupStats now st
  | .clearAll, st => clearAllData st

/-- Interpretation of a sequence of storage operations, oldest first. -/
def applyOps (ops : List StorageOp) (st : Store) : Store :=
  ops.foldl (fun s op => op.apply s) st

/-- Does the operation call `storeAccount` for the given account id?  (The
only operation that builds a fresh, undeleted record for an id.) -/
def StorageOp.storesId (i : String) : StorageOp → Bool
  | .store account _ _ _ _ => account.id == i
  | _ => false

/-! ## Raw string-level model of the two tolerant reads

`getStoredAccounts` and `getAuditLog` read a raw string from localStorage and
run `JSON.parse` inside a try/catch; any exception (in particular a string
that is not valid JSON) is caught and the read returns `[]`.  `JSON.parse` is
the JS runtime, so it enters the model as a parameter: `parse s = none` models
the parse throwing on `s`. -/

/-- The persisted (JSON) form of an audit entry: the timestamp is an ISO
string. -/
structure AuditLogEntryJson where
  id : String
  accountId : String
  action : AuditAction
  timestamp : IsoString
  details : Option String
deriving Repr, DecidableEq

/-- The `map` in `getAuditLog` that rebuilds the timestamp with
`new Date(...)`. -/
def decodeAuditEntry (e : AuditLogEntryJson) : AuditLogEntry :=
  { id := e.id, accountId := e.accountId, action := e.action
    timestamp := parseISODate e.timestamp, details := e.details }

/-- `getStoredAccounts` at the raw string level: absent key gives `[]`; a
value the runtime cannot parse makes `JSON.parse` throw, the catch branch
returns `[]`; otherwise the parsed records are mapped through the date
rebuild. -/
def getStoredAccountsRaw (parse : String → Option (List StoredAccountJson))
    (stored : Option String) : List StoredAccount :=
  match stored with
  | none => []
  | some s =>
    match parse s with
    | some accounts => accounts.map decodeStoredAccount
    | none => []

/-- `getAuditLog` at the raw string level, same shape as the accounts read. -/
def getAuditLogRaw (parse : String → Option (List AuditLogEntryJson))
    (stored : Option String) : List AuditLogEntry :=
  match stored with
  | none => []
  | some s =>
    match parse s with
    | some entries => entries.map decodeAuditEntry
    | none => []

/-! ## The cleanup service sweep -/

/-- `CleanupOptions` of the cleanup service. -/
structure CleanupOptions where
  maxRetries : Nat
  retryDelay : Nat
  batchSize : Nat
  enableNotifications : Bool
deriving Repr, DecidableEq

/-- `DEFAULT_OPTIONS` of the cleanup service. -/
def DEFAULT_OPTIONS : CleanupOptions :=
  { maxRetries := 3, retryDelay := 2000, batchSize := 5
    enableNotifications := true }

/-- One element of `CleanupResult.errors`. -/
structure CleanupError where
  accountId : String
  address : String
  error : String
deriving Repr, DecidableEq

/-- `CleanupResult` of the cleanup service. -/
structure CleanupResult where
  processed : Nat
  successful : Nat
  failed : Nat
  errors : List CleanupError
deriving Repr, DecidableEq

/-- The all-zero `CleanupResult` returned by the skipped and empty paths. -/
def zeroCleanupResult : CleanupResult :=
  { processed := 0, successful := 0, failed := 0, errors := [] }

/-- Externally visible actions of the modelled operations: remote API calls
and localStorage traffic. -/
inductive Event where
  | deleteCall (accountId : String)
  | markDeleted (accountId : String)
  | failureRecorded (accountId : String) (error : String)
  | createAccountCall (address : String)
  | getTokenCall (address : String)
  | getAccountCall
  | removeQueriesCall
  | storageRead (key : String)
  | storageWrite (key : String)
deriving Repr, DecidableEq

/-- Environment of one sweep: the outcome of each remote `deleteAccount`
attempt (`none` = the promise resolves, `some msg` = it rejects with `msg`),
and whether the initial `cleanupOldData` storage access throws (for example a
quota error), which the cycle-level catch turns into its fixed error
result. -/
structure SweepEnv where
  deleteOutcome : String → Nat → Option String
  storageFails : Option String

/-- State owned by the cleanup service singleton: the re-entrance flag plus
the storage slice it manipulates. -/
structure SweepState where
  isCleanupRunning : Bool
  store : Store

/-- The retry loop of `cleanupSingleAccount`: attempts are numbered from 1;
each attempt calls `mailApi.deleteAccount` once; a rejection increments the
per-account attempt counter in storage and retries (after a backoff delay,
which has no observable effect in the model) until the attempt budget is
exhausted.  Returns the success flag, the last error, the updated store and
the emitted events. -/
def attemptDeletions (env : SweepEnv) (a : StoredAccount) (now : Int) :
    Nat → Nat → String → Store → Bool × String × Store × List Event
  | _, 0, lastError, st => (false, lastError, st, [])
  | attempt, remaining + 1, _, st =>
    match env.deleteOutcome a.id attempt with
    | none => (true, "", st, [.deleteCall a.id])
    | some err =>
      let st1 := incrementCleanupAttempts a.id now st
      let (s, e, st2, tr) := attemptDeletions env a now (attempt + 1) remaining err st1
      (s, e, st2, .deleteCall a.id :: tr)

/-- `cleanupSingleAccount`: run the retry loop with the configured attempt
budget. -/
def cleanupSingleAccount (env : SweepEnv) (opts : CleanupOptions) (now : Int)
    (a : StoredAccount) (st : Store) : Bool × String × Store × List Event :=
  attemptDeletions env a now 1 opts.maxRetries "" st

/-- Run `cleanupSingleAccount` for each member of a batch, collecting the
settled outcomes in batch order.  The source fires the batch concurrently and
collects with `Promise.allSettled`; the accounts of a batch touch disjoint
records, so the interleaving is modelled as sequential execution in batch
order. -/
def runBatch (env : SweepEnv) (opts : CleanupOptions) (now : Int) :
    List StoredAccount → Store →
    Store × List (StoredAccount × Bool × String) × List Event
  | [], st => (st, [], [])
  | a :: rest, st =>
    let (s, e, st1, tra) := cleanupSingleAccount env opts now a st
    let (st2, outs, tr) := runBatch env opts now rest st1
    (st2, (a, s, e) :: outs, tra ++ tr)

/-- The per-batch result processing (`batchResults.forEach`): the settled
value of `cleanupSingleAccount` never rejects (its body catches every
exception), so only the fulfilled branch is live.  For each settled outcome,
bump the counters, mark the account deleted on success and record the failure
otherwise. -/
def processResults (now : Int) :
    List (StoredAccount × Bool × String) → Store → CleanupResult →
    Store × CleanupResult × List Event
  | [], st, result => (st, result, [])
  | (account, success, error) :: rest, st, result =>
    if success then
      let st1 := markAccountDeleted account.id now st
      let result1 := { result with processed := result.processed + 1
                                   successful := result.successful + 1 }
      let (st2, result2, tr) := processResults now rest st1 result1
      (st2, result2, Event.markDeleted account.id :: tr)
    else
      let st1 := recordCleanupFailure account.id error now st
      let result1 := { result with processed := result.processed + 1
                                   failed := result.failed + 1
                                   errors := result.errors ++ [⟨account.id, account.address, error⟩] }
      let (st2, result2, tr) := processResults now rest st1 result1
      (st2, result2, Event.failureRecorded account.id error :: tr)

/-- The batching loop index arithmetic `for (let i = 0; ...; i += batchSize)`
as a chunk list; the fuel argument (instantiated with the list length) makes
the recursion structural.  For `batchSize = 0` the source loop never
terminates, so every statement about the sweep assumes a positive batch
size. -/
def chunksOf (bs : Nat) : Nat → List α → List (List α)
  | 0, _ => []
  | _ + 1, [] => []
  | fuel + 1, x :: xs => (x :: xs).take bs :: chunksOf bs fuel ((x :: xs).drop bs)

/-- The batch loop of `cleanupExpiredAccounts`: for each batch run the
deletions, then fold the settled results into the running `CleanupResult`
and the store.  The inter-batch delay has no observable effect in the
model. -/
def runBatches (env : SweepEnv) (opts : CleanupOptions) (now : Int) :
    List (List StoredAccount) → Store → CleanupResult →
    CleanupResult × Store × List Event
  | [], st, result => (result, st, [])
  | batch :: rest, st, result =>
    let (st1, outs, trb) := runBatch env opts now batch st
    let (st2, result1, trc) := processResults now outs st1 result
    let (result2, st3, trr) := runBatches env opts now rest st2 result1
    (result2, st3, trb ++ trc ++ trr)

/-- `cleanupExpiredAccounts`: process the candidate list in batches starting
from the all-zero result. -/
def cleanupExpiredAccounts (env : SweepEnv) (opts : CleanupOptions) (now : Int)
    (accounts : List StoredAccount) (st : Store) :
    CleanupResult × Store × List Event :=
  runBatches env opts now (chunksOf opts.batchSize accounts.length accounts) st
    zeroCleanupResult

/-- The candidate selection a sweep performs: `cleanupOldData` first, then
`getExpiredAccounts` on the pruned store (lines 88 and 91 of the cleanup
service). -/
def sweepCandidates (now : Int) (store : Store) : List StoredAccount :=
  getExpiredAccounts now (cleanupOldData now store)

/-- The storage traffic of `cleanupOldData` (two reads, two writes). -/
def cleanupOldDataEvents : List Event :=
  [.storageRead ACCOUNTS_KEY, .storageRead AUDIT_LOG_KEY,
   .storageWrite ACCOUNTS_KEY, .storageWrite AUDIT_LOG_KEY]

/-- The storage traffic of `getExpiredAccounts` plus `updateCleanupStats`. -/
def statsEvents : List Event :=
  [.storageRead ACCOUNTS_KEY, .storageWrite CLEANUP_STATS_KEY]

/-- `runCleanupCycle`: a re-entrant call (flag already set) returns the zero
result without touching anything; otherwise the flag is raised, old data is
pruned, expired candidates are collected and processed, stats are refreshed,
and the `finally` clears the flag again.  A throwing storage access is caught
by the cycle-level catch, which returns its fixed one-error result (the
`finally` still clears the flag). -/
def runCleanupCycle (env : SweepEnv) (opts : CleanupOptions) (now : Int)
    (s : SweepState) : CleanupResult × SweepState × List Event :=
  if s.isCleanupRunning then
    (zeroCleanupResult, s, [])
  else
    match env.storageFails with
    | some msg =>
      ({ processed := 0, successful := 0, failed := 1
         errors := [⟨"unknown", "unknown", msg⟩] },
       { s with isCleanupRunning := false },
       [.storageRead ACCOUNTS_KEY])
    | none =>
      let st1 := cleanupOldData now s.store
      let expiredAccounts := sweepCandidates now s.store
      if expiredAccounts.isEmpty then
        (zeroCleanupResult,
         { isCleanupRunning := false, store := updateCleanupStats now st1 },
         cleanupOldDataEvents ++ [.storageRead ACCOUNTS_KEY] ++ statsEvents)
      else
        let (result, st2, tr) := cleanupExpiredAccounts env opts now expiredAccounts st1
        (result,
         { isCleanupRunning := false, store := updateCleanupStats now st2 },
         cleanupOldDataEvents ++ [.storageRead ACCOUNTS_KEY] ++ tr ++ statsEvents)

/-- Number of remote `deleteAccount` calls for a given account id in a
trace. -/
def countDeleteCalls (i : String) (tr : List Event) : Nat :=
  tr.countP (fun e => match e with
    | .deleteCall j => j == i
    | _ => false)

/-- Number of recorded per-account outcomes (success mark or failure record)
for a given account id in a trace. -/
def countOutcomes (i : String) (tr : List Event) : Nat :=
  tr.countP (fun e => match e with
    | .markDeleted j => j == i
    | .failureRecorded j _ => j == i
    | _ => false)

/-! ## The inbox lifecycle hook -/

/-- A domain record from the provider domain listing. -/
structure Domain where
  domain : String
  isActive : Bool
  isPrivate : Bool
deriving Repr, DecidableEq

/-- `InboxState` of the inbox hook. -/
structure InboxState where
  account : Option MailAccount
  password : String
  isAuthenticated : Bool
  expiresAt : Option Int
  token : Option String
  createdAt : Option Int
deriving Repr, DecidableEq

/-- The anonymous reset state the hook installs on expiry and deletion. -/
def anonymousInboxState : InboxState :=
  { account := none, password := "", isAuthenticated := false
    expiresAt := none, token := none, createdAt := none }

/-- `CleanupLog` of the inbox hook (the legacy cleanup-log shape). -/
structure CleanupLog where
  accountId : String
  deletedAt : Int
  reason : String
  success : Bool
  error : Option String
deriving Repr, DecidableEq

/-- The localStorage slice the hook touches: the persisted session under the
key `inbox-state` (modelled by its parsed content; `none` means the key is
absent) and the parsed list under the key `cleanup-logs`. -/
structure Session where
  inboxStateKey : Option InboxState
  cleanupLogs : List CleanupLog
deriving Repr, DecidableEq

/-- The cleanup-log append of the hook: push, then
`if (logs.length > 50) logs.splice(0, logs.length - 50)`, which removes the
front (earliest-appended) entries. -/
def appendCleanupLog (log : CleanupLog) (logs : List CleanupLog) :
    List CleanupLog :=
  let logs1 := logs ++ [log]
  if logs1.length > 50 then logs1.drop (logs1.length - 50) else logs1

/-- `handleExpiredInbox`: with no account it is a no-op; otherwise it calls
the remote `deleteAccount` (outcome given by `deleteOutcome`; a rejection is
caught and only recorded in the log entry), appends the cleanup log, and then
unconditionally clears the local state, the bearer token, the persisted
`inbox-state` key and the cached message queries. -/
def handleExpiredInbox (deleteOutcome : Option String) (now : Int)
    (st : InboxState) (sess : Session) : InboxState × Session × List Event :=
  match st.account with
  | none => (st, sess, [])
  | some account =>
    let log : CleanupLog :=
      { accountId := account.id, deletedAt := now, reason := "timer_expired"
        success := deleteOutcome.isNone, error := deleteOutcome }
    let sess1 := { sess with cleanupLogs := appendCleanupLog log sess.cleanupLogs }
    let sess2 := { sess1 with inboxStateKey := none }
    (anonymousInboxState, sess2, [.deleteCall account.id, .removeQueriesCall])

/-- The remaining-seconds computation of the countdown effect:
`Math.max(0, Math.floor((expiresAt - now) / 1000))` (JS `Math.floor` on the
real quotient is flooring division). -/
def timeRemainingOf (now expiresAt : Int) : Int :=
  max 0 ((expiresAt - now).fdiv 1000)

/-- One tick of the countdown effect (`updateTimer`): without an expiry or
authentication it resets the display state; otherwise it recomputes the
remaining seconds, the warning flag, and on zero remaining with an account
present runs `handleExpiredInbox`.  Returns remaining seconds, warning flag,
and the updated state, session and trace. -/
def timerTick (deleteOutcome : Option String) (now : Int) (st : InboxState)
    (sess : Session) : Int × Bool × InboxState × Session × List Event :=
  match st.expiresAt, st.isAuthenticated with
  | some e, true =>
    let remaining := timeRemainingOf now e
    let warn := decide (remaining ≤ 1800) && decide (0 < remaining)
    if remaining ≤ 0 ∧ st.account.isSome then
      let (st2, sess2, tr) := handleExpiredInbox deleteOutcome now st sess
      (remaining, warn, st2, sess2, tr)
    else
      (remaining, warn, st, sess, [])
  | _, _ => (0, false, st, sess, [])

/-- Environment of one `createInbox` run: the random choices (domain index,
local part, password), the outcome of the remote creation phase (`some msg`
models the `createAccount` call rejecting; a rejection of the later token or
account fetch propagates identically), and on success the issued token and
the canonical account record the provider returns. -/
structure CreateEnv where
  randomIndex : Nat
  username : String
  password : String
  remoteFailure : Option String
  token : String
  verifiedAccount : MailAccount

/-- The `mutationFn` of the create-inbox mutation: filter the domain list to
active, non-private domains; with none available throw before any remote
call; otherwise pick a random domain, build the address, create the account,
fetch the token and the canonical record.  Returns the thrown message or the
mutation value, together with the remote calls made. -/
def createInboxMutationFn (env : CreateEnv) (domains : List Domain) :
    Except String (MailAccount × String × String) × List Event :=
  let activeDomains := domains.filter (fun d => d.isActive && !d.isPrivate)
  if activeDomains.length = 0 then
    (.error "No available domains found. Please try again later.", [])
  else
    let randomDomain := activeDomains.getD (env.randomIndex % activeDomains.length)
      { domain := "", isActive := false, isPrivate := false }
    let address := env.username ++ "@" ++ randomDomain.domain
    match env.remoteFailure with
    | some err => (.error err, [.createAccountCall address])
    | none =>
      (.ok (env.verifiedAccount, env.password, env.token),
       [.createAccountCall address, .getTokenCall address, .getAccountCall])

/-- `createInbox`: run the mutation; `onError` only surfaces the message (no
state or storage change); `onSuccess` sets the expiry one hour ahead, installs
the authenticated state and persists it under `inbox-state`.  Returns the new
state, session, trace and the surfaced error, if any. -/
def createInbox (env : CreateEnv) (domains : List Domain) (now : Int)
    (st : InboxState) (sess : Session) :
    InboxState × Session × List Event × Option String :=
  match createInboxMutationFn env domains with
  | (.error msg, tr) => (st, sess, tr, some msg)
  | (.ok (account, password, token), tr) =>
    let expiresAt := now + 60 * 60 * 1000
    let newState : InboxState :=
      { account := some account, password := password, isAuthenticated := true
        expiresAt := some expiresAt, token := some token, createdAt := some now }
    (newState, { sess with inboxStateKey := some newState }, tr, none)

/-! ## Basic lemmas about the persistence round trip -/

/-- Parsing the serialized form of an account record recovers it exactly:
every non-date field is stored verbatim and each date field goes through
`toISOString` and back to the same instant. -/
@[simp] theorem decode_encode (a : StoredAccount) :
    decodeStoredAccount (encodeStoredAccount a) = a := rfl

@[simp] theorem getStoredAccounts_saveAccounts (l : List StoredAccount) (st : Store) :
    getStoredAccounts (saveAccounts l st) = l := by
  simp [getStoredAccounts, saveAccounts, List.map_map, Function.comp_def]

@[simp] theorem accounts_addAuditLogEntry (accountId : String) (action : AuditAction)
    (details : Option String) (now : Int) (st : Store) :
    (addAuditLogEntry accountId action details now st).accounts = st.accounts := rfl

@[simp] theorem getStoredAccounts_addAuditLogEntry (accountId : String)
    (action : AuditAction) (details : Option String) (now : Int) (st : Store) :
    getStoredAccounts (addAuditLogEntry accountId action details now st) =
      getStoredAccounts st := rfl

/-! ## Concrete fixtures used by witnesses and counterexamples -/

/-- A concrete stored account record. -/
def fxAccount (i : String) (created expires : Int) (del : Bool) : StoredAccount :=
  { id := i, address := i ++ "@example.test", password := "pw", token := "tok"
    createdAt := created, expiresAt := expires, deleted := del
    lastAccessedAt := created, messageCount := 0, cleanupAttempts := 0 }

/-- The empty store. -/
def fxEmptyStore : Store := { accounts := [], auditLog := [], stats := none }

/-- A store holding one expired, undeleted account. -/
def fxExpiredStore : Store :=
  { accounts := [encodeStoredAccount (fxAccount "a" 1000 500 false)]
    auditLog := [], stats := none }

/-- A sweep environment in which every remote delete attempt rejects. -/
def fxEnvFail : SweepEnv :=
  { deleteOutcome := fun _ _ => some "network error", storageFails := none }

/-- A sweep environment in which every remote delete attempt resolves. -/
def fxEnvOk : SweepEnv :=
  { deleteOutcome := fun _ _ => none, storageFails := none }

/-! ## C9 -/

/-- C9 (confirmed): for every stored string under the accounts key or the
audit-log key that the runtime cannot parse as JSON, `getStoredAccounts` and
`getAuditLog` catch the parse exception and return the empty collection. -/
theorem malformed_reads_return_empty
    (parseAccounts : String → Option (List StoredAccountJson))
    (parseEntries : String → Option (List AuditLogEntryJson)) (s : String)
    (hA : parseAccounts s = none) (hL : parseEntries s = none) :
    getStoredAccountsRaw parseAccounts (some s) = [] ∧
    getAuditLogRaw parseEntries (some s) = [] := by
  constructor <;> simp [getStoredAccountsRaw, getAuditLogRaw, hA, hL]

/-- Witness for C9 at a concrete malformed payload. -/
theorem malformed_reads_return_empty_witness :
    getStoredAccountsRaw (fun _ => none) (some "not valid json") = [] ∧
    getAuditLogRaw (fun _ => none) (some "not valid json") = [] :=
  malformed_reads_return_empty (fun _ => none) (fun _ => none) "not valid json" rfl rfl

/-! ## C5 -/

/-- C5 (confirmed): with no active, non-private domain, `createInbox` fails
with the fixed error message, makes no remote call, and leaves the inbox
state and the persisted session untouched. -/
theorem createInbox_no_domains_fails (env : CreateEnv) (domains : List Domain)
    (now : Int) (st : InboxState) (sess : Session)
    (h : domains.filter (fun d => d.isActive && !d.isPrivate) = []) :
    createInbox env domains now st sess =
      (st, sess, [], some "No available domains found. Please try again later.") := by
  unfold createInbox createInboxMutationFn
  rw [h]
  simp

/-- Witness for C5: a domain list whose only domain is inactive. -/
theorem createInbox_no_domains_fails_witness :
    createInbox
      { randomIndex := 0, username := "u", password := "p"
        remoteFailure := none, token := "tk"
        verifiedAccount := { id := "v", address := "u@d" } }
      [{ domain := "d", isActive := false, isPrivate := false }] 0
      anonymousInboxState { inboxStateKey := none, cleanupLogs := [] } =
      (anonymousInboxState, { inboxStateKey := none, cleanupLogs := [] }, [],
       some "No available domains found. Please try again later.") :=
  createInbox_no_domains_fails _ _ _ _ _ (by decide)

/-! ## C6 -/

/-- C6 (confirmed): a `runCleanupCycle` invocation while a sweep is already
running returns the zero result, changes nothing and emits no storage or
remote traffic; an invocation that does start a sweep ends with the
mutual-exclusion flag cleared again. -/
theorem no_overlapping_sweeps :
    (∀ (env : SweepEnv) (opts : CleanupOptions) (now : Int) (s : SweepState),
      s.isCleanupRunning = true →
      runCleanupCycle env opts now s = (zeroCleanupResult, s, [])) ∧
    (∀ (env : SweepEnv) (opts : CleanupOptions) (now : Int) (s : SweepState),
      s.isCleanupRunning = false →
      ((runCleanupCycle env opts now s).2.1).isCleanupRunning = false) := by
  constructor
  · intro env opts now s h
    simp [runCleanupCycle, h]
  · intro env opts now s h
    simp only [runCleanupCycle, h, Bool.false_eq_true, if_false]
    cases env.storageFails with
    | some msg => rfl
    | none =>
      by_cases he : (sweepCandidates now s.store).isEmpty
      · simp [he]
      · rcases hce : cleanupExpiredAccounts env opts now (sweepCandidates now s.store)
          (cleanupOldData now s.store) with ⟨r, st2, tr⟩
        simp [he, hce]

/-- Witness for C6: concrete skipped and completed cycles. -/
theorem no_overlapping_sweeps_witness :
    runCleanupCycle fxEnvFail DEFAULT_OPTIONS 1000
        { isCleanupRunning := true, store := fxExpiredStore } =
      (zeroCleanupResult, { isCleanupRunning := true, store := fxExpiredStore }, []) ∧
    ((runCleanupCycle fxEnvFail DEFAULT_OPTIONS 1000
        { isCleanupRunning := false, store := fxExpiredStore }).2.1).isCleanupRunning
      = false :=
  ⟨no_overlapping_sweeps.1 fxEnvFail DEFAULT_OPTIONS 1000 _ rfl,
   no_overlapping_sweeps.2 fxEnvFail DEFAULT_OPTIONS 1000 _ rfl⟩

/-! ## C4 -/

/-- C4 (confirmed): for every authenticated inbox whose countdown has reached
zero, the expiry tick runs `handleExpiredInbox`, which resets the inbox to
the anonymous state (account `none`, not authenticated, token cleared) and
removes the persisted `inbox-state` key, for every outcome of the remote
delete call (in particular when it rejects). -/
theorem expiry_resets_to_anonymous (deleteOutcome : Option String)
    (now e : Int) (st : InboxState) (sess : Session) (a : MailAccount)
    (hacc : st.account = some a) (hauth : st.isAuthenticated = true)
    (hexp : st.expiresAt = some e) (hle : e ≤ now) :
    timerTick deleteOutcome now st sess =
      (0, false, anonymousInboxState,
       { inboxStateKey := none
         cleanupLogs := appendCleanupLog
           { accountId := a.id, deletedAt := now, reason := "timer_expired"
             success := deleteOutcome.isNone, error := deleteOutcome }
           sess.cleanupLogs },
       [.deleteCall a.id, .removeQueriesCall]) := by
  have hrem : timeRemainingOf now e = 0 := by
    unfold timeRemainingOf
    rw [Int.fdiv_eq_ediv _ (by norm_num)]
    omega
  obtain ⟨acct, pw, auth, exp, tok, cr⟩ := st
  simp only [] at hacc hauth hexp
  subst hacc hauth hexp
  simp [timerTick, hrem, handleExpiredInbox]

/-- Witness for C4: a concrete expired authenticated inbox with a failing
remote delete. -/
theorem expiry_resets_to_anonymous_witness :
    timerTick (some "api down") 6000
      { account := some { id := "a", address := "a@x" }, password := "p"
        isAuthenticated := true, expiresAt := some 5000, token := some "tk"
        createdAt := some 0 }
      { inboxStateKey := some anonymousInboxState, cleanupLogs := [] } =
      (0, false, anonymousInboxState,
       { inboxStateKey := none
         cleanupLogs := [{ accountId := "a", deletedAt := 6000
                           reason := "timer_expired", success := false
                           error := some "api down" }] },
       [.deleteCall "a", .removeQueriesCall]) := by
  have h := expiry_resets_to_anonymous (some "api down") 6000 5000
    { account := some { id := "a", address := "a@x" }, password := "p"
      isAuthenticated := true, expiresAt := some 5000, token := some "tk"
      createdAt := some 0 }
    { inboxStateKey := some anonymousInboxState, cleanupLogs := [] }
    { id := "a", address := "a@x" } rfl rfl rfl (by norm_num)
  simpa [appendCleanupLog] using h

/-! ## Counterexample fixtures -/

/-- A store holding one undeleted account whose expiry equals the scan
instant exactly. -/
def fxBoundaryStore : Store :=
  { accounts := [encodeStoredAccount (fxAccount "b" 1000 1000 false)]
    auditLog := [], stats := none }

/-- A store holding one undeleted, unexpired account created exactly at the
30-day retention cutoff. -/
def fxOldStore : Store :=
  { accounts := [encodeStoredAccount (fxAccount "old" (1000 - RETENTION_MS) 2000000 false)]
    auditLog := [], stats := none }

/-- A concrete cleanup-log entry with the given timestamp. -/
def fxLog (ts : Int) : CleanupLog :=
  { accountId := "a", deletedAt := ts, reason := "timer_expired"
    success := true, error := none }

/-- A full cleanup log whose front entry is newer than the 49 entries behind
it. -/
def fxLogs : List CleanupLog := fxLog 100 :: List.replicate 49 (fxLog 0)

/-- A concrete remote account record. -/
def fxMail (i : String) : MailAccount := { id := i, address := i ++ "@example.test" }

/-- A sweep environment whose initial storage access throws. -/
def fxEnvAbort : SweepEnv :=
  { deleteOutcome := fun _ _ => none, storageFails := some "storage quota exceeded" }

/-- Fifty stored accounts sharing one creation instant. -/
def fxTiedStore : Store :=
  { accounts := (List.range 50).map
      (fun i => encodeStoredAccount (fxAccount ("a" ++ toString i) 100 999 false))
    auditLog := [], stats := none }

/-! ## C1 -/

/-- C1 (corrected), counterexample: the claimed candidate condition
`expiresAt <= now OR createdAt <= now - maxRetentionDays` (on a not-deleted
account) disagrees with the code twice.  First: an account with
`expiresAt = now` exactly is present when the sweep scans storage and
satisfies the claimed condition, yet is not selected (the code compares with
strict `<`).  Second: an undeleted, unexpired account created at the
retention cutoff satisfies the claimed condition, yet is never selected as a
deletion candidate — `cleanupOldData` removes it from local storage before
the scan instead. -/
theorem sweep_candidate_selection_counterexample :
    (fxAccount "b" 1000 1000 false ∈ getStoredAccounts (cleanupOldData 1000 fxBoundaryStore) ∧
     (fxAccount "b" 1000 1000 false).deleted = false ∧
     (fxAccount "b" 1000 1000 false).expiresAt ≤ 1000 ∧
     fxAccount "b" 1000 1000 false ∉ sweepCandidates 1000 fxBoundaryStore) ∧
    (fxAccount "old" (1000 - RETENTION_MS) 2000000 false ∈ getStoredAccounts fxOldStore ∧
     (fxAccount "old" (1000 - RETENTION_MS) 2000000 false).deleted = false ∧
     (fxAccount "old" (1000 - RETENTION_MS) 2000000 false).createdAt ≤ 1000 - RETENTION_MS ∧
     fxAccount "old" (1000 - RETENTION_MS) 2000000 false ∉ sweepCandidates 1000 fxOldStore) := by
  decide

/-! ## C3 -/

/-- C3 (corrected), counterexample: the cleanup log evicts from the front of
the stored array (insertion order), not by timestamp.  With a full log whose
front entry is newer than the 49 entries behind it, an overflowing append
evicts that newer entry while all the strictly older entries survive. -/
theorem log_eviction_counterexample :
    fxLog 100 ∈ fxLogs ∧
    (fxLogs ++ [fxLog 200]).length > 50 ∧
    fxLog 100 ∉ appendCleanupLog (fxLog 200) fxLogs ∧
    fxLog 0 ∈ appendCleanupLog (fxLog 200) fxLogs ∧
    (fxLog 0).deletedAt < (fxLog 100).deletedAt := by decide

/-! ## C8 -/

/-- C8 (corrected), counterexample: after `storeAccount`, `markAccountDeleted`
and a second `storeAccount` with the same id, the store again holds a record
with that id and `deleted = false`: `storeAccount` replaces the deleted
record with a fresh undeleted one. -/
theorem deleted_undeleted_counterexample :
    (getStoredAccount "x" (applyOps
        [.store (fxMail "x") "pw" "tok" 999 1, .markDeleted "x" 2]
        fxEmptyStore)).map StoredAccount.deleted = some true ∧
    (getStoredAccount "x" (applyOps
        [.store (fxMail "x") "pw" "tok" 999 1, .markDeleted "x" 2,
         .store (fxMail "x") "pw" "tok" 999 3]
        fxEmptyStore)).map StoredAccount.deleted = some false := by decide

/-! ## C10 -/

/-- C10 (corrected), counterexample: a sweep aborted by a storage exception
returns `processed = 0, successful = 0, failed = 1` with one error entry, so
`processed = successful + failed` fails on that result (the claim asserts the
equation for every returned result). -/
theorem result_invariant_counterexample :
    (runCleanupCycle fxEnvAbort DEFAULT_OPTIONS 1000
        { isCleanupRunning := false, store := fxExpiredStore }).1 =
      { processed := 0, successful := 0, failed := 1
        errors := [{ accountId := "unknown", address := "unknown"
                     error := "storage quota exceeded" }] } ∧
    ¬ ((runCleanupCycle fxEnvAbort DEFAULT_OPTIONS 1000
        { isCleanupRunning := false, store := fxExpiredStore }).1.processed =
       (runCleanupCycle fxEnvAbort DEFAULT_OPTIONS 1000
        { isCleanupRunning := false, store := fxExpiredStore }).1.successful +
       (runCleanupCycle fxEnvAbort DEFAULT_OPTIONS 1000
        { isCleanupRunning := false, store := fxExpiredStore }).1.failed) := by decide

/-! ## C2 -/

/-- C2 (corrected), counterexample: when every remote delete attempt rejects,
one sweep cycle calls the provider `deleteAccount` three times (the default
`maxRetries`) for a single expired candidate — one call per retry, not one
per cycle. -/
theorem single_deletion_counterexample :
    fxAccount "a" 1000 500 false ∈ sweepCandidates 1000 fxExpiredStore ∧
    countDeleteCalls "a" (runCleanupCycle fxEnvFail DEFAULT_OPTIONS 1000
      { isCleanupRunning := false, store := fxExpiredStore }).2.2 = 3 := by decide

/-! ## C7 -/

/-- C7 (corrected), counterexample: with fifty stored accounts sharing the
new record's creation instant, `storeAccount` sorts the new record behind all
of them (stable descending sort) and the 50-record cap slices it away, so the
retrieval returns null instead of the stored field values. -/
theorem storeAccount_roundtrip_counterexample :
    (getStoredAccounts fxTiedStore).length = 50 ∧
    getStoredAccount "new"
      (storeAccount { id := "new", address := "new@example.test" } "pw" "tok"
        999 100 fxTiedStore).2 = none := by decide

/-! ## C1, amended -/

/-- The account list a sweep sees after the initial prune: exactly the stored
accounts created after the 30-day cutoff. -/
theorem getStoredAccounts_cleanupOldData (now : Int) (st : Store) :
    getStoredAccounts (cleanupOldData now st) =
      (getStoredAccounts st).filter (fun a => decide (now - RETENTION_MS < a.createdAt)) := by
  simp [cleanupOldData, getStoredAccounts, saveAccounts, List.map_map, Function.comp_def]

/-- C1 (corrected, amended): the sweep prunes accounts at or beyond the
retention cutoff from local storage before scanning, so every account present
at scan time has `createdAt > now - 30 days`; among those, the sweep selects
an account as a deletion candidate exactly when it is not marked deleted and
`expiresAt < now` holds strictly. -/
theorem sweep_candidate_characterization (now : Int) (store : Store) :
    (∀ a ∈ getStoredAccounts (cleanupOldData now store), now - RETENTION_MS < a.createdAt) ∧
    (∀ a, a ∈ sweepCandidates now store ↔
      (a ∈ getStoredAccounts (cleanupOldData now store) ∧
       a.deleted = false ∧ a.expiresAt < now)) := by
  constructor
  · intro a ha
    rw [getStoredAccounts_cleanupOldData] at ha
    have := (List.mem_filter.mp ha).2
    exact of_decide_eq_true this
  · intro a
    unfold sweepCandidates getExpiredAccounts
    rw [List.mem_filter]
    simp [Bool.and_eq_true, Bool.not_eq_true']

/-- Witness for C1: a concrete expired account is selected. -/
theorem sweep_candidate_characterization_witness :
    fxAccount "a" 1000 500 false ∈ sweepCandidates 1000 fxExpiredStore :=
  ((sweep_candidate_characterization 1000 fxExpiredStore).2 _).mpr (by decide)

/-! ## C3, amended -/

/-- C3 (corrected, amended): an audit-log append leaves at most 1000 entries
and evicts oldest-by-timestamp first (every entry that is dropped has a
timestamp no newer than every kept entry); a cleanup-log append leaves at
most 50 entries, but it evicts a prefix of the stored array — the
earliest-appended entries — which are the oldest by timestamp only when
appends carry nondecreasing timestamps. -/
theorem log_caps_and_eviction :
    (∀ (accountId : String) (action : AuditAction) (details : Option String)
       (now : Int) (st : Store),
       ((addAuditLogEntry accountId action details now st).auditLog).length ≤ MAX_AUDIT_ENTRIES ∧
       (∀ e ∈ st.auditLog,
          e ∉ (addAuditLogEntry accountId action details now st).auditLog →
          ∀ k ∈ (addAuditLogEntry accountId action details now st).auditLog,
            e.timestamp ≤ k.timestamp)) ∧
    (∀ (log : CleanupLog) (logs : List CleanupLog),
       (appendCleanupLog log logs).length ≤ 50 ∧
       ∃ dropped, dropped ++ appendCleanupLog log logs = logs ++ [log]) := by
  constructor
  · intro accountId action details now st
    set entry : AuditLogEntry :=
      { id := toString now ++ "-id", accountId := accountId, action := action
        timestamp := now, details := details } with hentry
    have hres : (addAuditLogEntry accountId action details now st).auditLog =
        (List.insertionSort timestampDesc (st.auditLog ++ [entry])).take MAX_AUDIT_ENTRIES := rfl
    set S := List.insertionSort timestampDesc (st.auditLog ++ [entry]) with hS
    constructor
    · rw [hres]
      exact List.length_take_le _ _
    · intro e he hnot k hk
      have hsorted : List.Sorted timestampDesc S := List.sorted_insertionSort _ _
      have hperm : S.Perm (st.auditLog ++ [entry]) := List.perm_insertionSort _ _
      have heS : e ∈ S := hperm.mem_iff.mpr (List.mem_append_left _ he)
      have hsplit :
          List.Pairwise timestampDesc
            (S.take MAX_AUDIT_ENTRIES ++ S.drop MAX_AUDIT_ENTRIES) := by
        rw [List.take_append_drop]; exact hsorted
      obtain ⟨-, -, hrel⟩ := List.pairwise_append.mp hsplit
      have hedrop : e ∈ S.drop MAX_AUDIT_ENTRIES := by
        have heS2 : e ∈ S.take MAX_AUDIT_ENTRIES ++ S.drop MAX_AUDIT_ENTRIES := by
          rw [List.take_append_drop]; exact heS
        rcases List.mem_append.mp heS2 with h | h
        · rw [hres] at hnot; exact absurd h hnot
        · exact h
      rw [hres] at hk
      exact hrel k hk e hedrop
  · intro log logs
    unfold appendCleanupLog
    by_cases h : (logs ++ [log]).length > 50
    · simp only [h, if_true]
      constructor
      · rw [List.length_drop]
        omega
      · exact ⟨(logs ++ [log]).take ((logs ++ [log]).length - 50),
          List.take_append_drop _ _⟩
    · simp only [h, if_false]
      constructor
      · simp only [List.length_append, List.length_singleton] at h ⊢
        omega
      · exact ⟨[], rfl⟩

/-- A concrete audit entry with the given timestamp. -/
def fxEntry (ts : Int) : AuditLogEntry :=
  { id := "e", accountId := "a", action := .CREATED, timestamp := ts, details := none }

/-- A store whose audit log is full: 1001 entries with descending
timestamps. -/
def fxBigStore : Store :=
  { accounts := []
    auditLog := (List.range 1001).map (fun i => fxEntry ((1001 : Int) - i))
    stats := none }

set_option maxRecDepth 100000 in
/-- Witness for C3: on a full audit log the cap holds and the concrete evicted
entry (timestamp 1) is at least as old as a kept one; the cleanup-log cap
holds on a concrete overflowing append. -/
theorem log_caps_and_eviction_witness :
    ((addAuditLogEntry "a" .CREATED none 2000 fxBigStore).auditLog).length ≤ MAX_AUDIT_ENTRIES ∧
    (fxEntry 1).timestamp ≤
      ({ id := "2000-id", accountId := "a", action := .CREATED
         timestamp := 2000, details := none } : AuditLogEntry).timestamp ∧
    (appendCleanupLog (fxLog 200) fxLogs).length ≤ 50 := by
  refine ⟨(log_caps_and_eviction.1 "a" .CREATED none 2000 fxBigStore).1, ?_,
    (log_caps_and_eviction.2 (fxLog 200) fxLogs).1⟩
  exact (log_caps_and_eviction.1 "a" .CREATED none 2000 fxBigStore).2 (fxEntry 1)
    (by decide) (by decide) _ (by decide)

/-! ## C8, amended -/

/-- Every record with the given id in the store is marked deleted. -/
def idDeleted (i : String) (st : Store) : Prop :=
  ∀ a ∈ getStoredAccounts st, a.id = i → a.deleted = true

instance (i : String) (st : Store) : Decidable (idDeleted i st) := by
  unfold idDeleted; infer_instance

/-- Membership after the findIndex/mutate pattern: each element of the
result is an original element or the image of one. -/
theorem mem_updateFirst {p : α → Bool} {f : α → α} {a : α} :
    ∀ {l : List α}, a ∈ updateFirst p f l → a ∈ l ∨ ∃ b ∈ l, a = f b
  | [], h => absurd h (List.not_mem_nil a)
  | x :: xs, h => by
    unfold updateFirst at h
    by_cases hx : p x = true
    · rw [if_pos hx] at h
      rcases List.mem_cons.mp h with h | h
      · exact Or.inr ⟨x, List.mem_cons_self x xs, h⟩
      · exact Or.inl (List.mem_cons_of_mem x h)
    · rw [if_neg hx] at h
      rcases List.mem_cons.mp h with h | h
      · exact Or.inl (h ▸ List.mem_cons_self x xs)
      · rcases mem_updateFirst h with h | ⟨b, hb, hfb⟩
        · exact Or.inl (List.mem_cons_of_mem x h)
        · exact Or.inr ⟨b, List.mem_cons_of_mem x hb, hfb⟩

@[simp] theorem getStoredAccounts_stats (now : Int) (st : Store) :
    getStoredAccounts (updateCleanupStats now st) = getStoredAccounts st := rfl

/-- One storage operation that is not a `storeAccount` for the id preserves
deletedness of that id. -/
theorem idDeleted_apply (i : String) (op : StorageOp) (st : Store)
    (h : idDeleted i st) (hop : op.storesId i = false) :
    idDeleted i (op.apply st) := by
  cases op with
  | store account password token expiresAt now =>
    have hid : account.id ≠ i := by
      simpa [StorageOp.storesId] using hop
    intro a ha hai
    simp only [StorageOp.apply, storeAccount] at ha
    rw [getStoredAccounts_addAuditLogEntry, getStoredAccounts_saveAccounts] at ha
    have haS := List.mem_of_mem_take ha
    have hmem := (List.perm_insertionSort createdDesc _).mem_iff.mp haS
    rcases List.mem_append.mp hmem with hf | hn
    · exact h a (List.mem_of_mem_filter hf) hai
    · rcases List.mem_singleton.mp hn with rfl
      exact absurd hai hid
  | updateAccess accountId messageCount now =>
    intro a ha hai
    simp only [StorageOp.apply, updateAccountAccess] at ha
    by_cases hany : (getStoredAccounts st).any (fun a => a.id == accountId)
    · rw [if_pos hany, getStoredAccounts_addAuditLogEntry,
        getStoredAccounts_saveAccounts] at ha
      rcases mem_updateFirst ha with hm | ⟨b, hb, rfl⟩
      · exact h a hm hai
      · exact h b hb hai
    · rw [if_neg hany] at ha
      exact h a ha hai
  | markDeleted accountId now =>
    intro a ha hai
    simp only [StorageOp.apply, markAccountDeleted] at ha
    by_cases hany : (getStoredAccounts st).any (fun a => a.id == accountId)
    · rw [if_pos hany, getStoredAccounts_addAuditLogEntry,
        getStoredAccounts_saveAccounts] at ha
      rcases mem_updateFirst ha with hm | ⟨b, hb, rfl⟩
      · exact h a hm hai
      · rfl
    · rw [if_neg hany] at ha
      exact h a ha hai
  | incrementAttempts accountId now =>
    intro a ha hai
    simp only [StorageOp.apply, incrementCleanupAttempts] at ha
    by_cases hany : (getStoredAccounts st).any (fun a => a.id == accountId)
    · rw [if_pos hany, getStoredAccounts_addAuditLogEntry,
        getStoredAccounts_saveAccounts] at ha
      rcases mem_updateFirst ha with hm | ⟨b, hb, rfl⟩
      · exact h a hm hai
      · exact h b hb hai
    · rw [if_neg hany] at ha
      exact h a ha hai
  | recordFailure accountId error now =>
    intro a ha hai
    simp only [StorageOp.apply, recordCleanupFailure] at ha
    rw [getStoredAccounts_addAuditLogEntry] at ha
    exact h a ha hai
  | cleanupOld now =>
    intro a ha hai
    simp only [StorageOp.apply] at ha
    rw [getStoredAccounts_cleanupOldData] at ha
    exact h a (List.mem_of_mem_filter ha) hai
  | updateStats now =>
    intro a ha hai
    simp only [StorageOp.apply, getStoredAccounts_stats] at ha
    exact h a ha hai
  | clearAll =>
    intro a ha hai
    simp [StorageOp.apply, clearAllData, getStoredAccounts] at ha

/-- C8 (corrected, amended): once every record with a given id is marked
deleted, it stays that way across every sequence of storage operations that
contains no further `storeAccount` call for that id (such a call would
replace the record with a fresh undeleted one). -/
theorem deleted_persists_without_restore (i : String) (ops : List StorageOp)
    (st : Store) (hdel : idDeleted i st)
    (hops : ∀ op ∈ ops, op.storesId i = false) :
    idDeleted i (applyOps ops st) := by
  induction ops generalizing st with
  | nil => exact hdel
  | cons op rest ih =>
    have h1 : idDeleted i (op.apply st) :=
      idDeleted_apply i op st hdel (hops op (List.mem_cons_self op rest))
    have h2 : ∀ o ∈ rest, o.storesId i = false :=
      fun o ho => hops o (List.mem_cons_of_mem op ho)
    simpa [applyOps] using ih (op.apply st) h1 h2

/-- Witness for C8: after storing and deleting account x, a sequence of
access updates, prunes and stores of a different id keeps x deleted. -/
theorem deleted_persists_without_restore_witness :
    idDeleted "x"
      (applyOps
        [.updateAccess "x" 5 10, .cleanupOld 20,
         .store (fxMail "y") "pw" "tok" 999 30, .incrementAttempts "x" 40]
        (applyOps [.store (fxMail "x") "pw" "tok" 999 1, .markDeleted "x" 2]
          fxEmptyStore)) :=
  deleted_persists_without_restore "x"
    [.updateAccess "x" 5 10, .cleanupOld 20,
     .store (fxMail "y") "pw" "tok" 999 30, .incrementAttempts "x" 40]
    _ (by decide) (by decide)

/-! ## C10, amended -/

/-- With a positive batch size and enough fuel, the batches partition the
candidate list. -/
theorem chunksOf_flatten {bs : Nat} (hbs : 0 < bs) :
    ∀ (fuel : Nat) (l : List α), l.length ≤ fuel →
      (chunksOf bs fuel l).flatten = l := by
  intro fuel
  induction fuel with
  | zero =>
    intro l hl
    have : l = [] := List.eq_nil_of_length_eq_zero (Nat.le_zero.mp hl)
    subst this
    rfl
  | succ n ih =>
    intro l hl
    cases l with
    | nil => rfl
    | cons x xs =>
      have hdrop : ((x :: xs).drop bs).length ≤ n := by
        rw [List.length_drop]
        simp only [List.length_cons] at hl ⊢
        omega
      simp only [chunksOf, List.flatten_cons, ih _ hdrop, List.take_append_drop]

/-- A batch produces one settled outcome per account. -/
theorem runBatch_outs_length (env : SweepEnv) (opts : CleanupOptions) (now : Int) :
    ∀ (batch : List StoredAccount) (st : Store),
      (runBatch env opts now batch st).2.1.length = batch.length := by
  intro batch
  induction batch with
  | nil => intro st; rfl
  | cons a rest ih =>
    intro st
    simp only [runBatch]
    rcases hsa : cleanupSingleAccount env opts now a st with ⟨s, e, st1, tra⟩
    rcases hrb : runBatch env opts now rest st1 with ⟨st2, outs, tr⟩
    have h := ih st1
    rw [hrb] at h
    simp [hsa, hrb, h]

/-- Counter bookkeeping of the result-processing pass. -/
theorem processResults_spec (now : Int) :
    ∀ (items : List (StoredAccount × Bool × String)) (st : Store)
      (res : CleanupResult),
      (processResults now items st res).2.1.processed = res.processed + items.length ∧
      (processResults now items st res).2.1.successful =
        res.successful + items.countP (fun it => it.2.1) ∧
      (processResults now items st res).2.1.failed =
        res.failed + items.countP (fun it => !it.2.1) ∧
      (processResults now items st res).2.1.errors.length =
        res.errors.length + items.countP (fun it => !it.2.1) := by
  intro items
  induction items with
  | nil => intro st res; simp [processResults]
  | cons item rest ih =>
    intro st res
    rcases item with ⟨account, success, error⟩
    by_cases hs : success
    · subst hs
      simp only [processResults, if_true]
      rcases hpr : processResults now rest (markAccountDeleted account.id now st)
          { res with processed := res.processed + 1
                     successful := res.successful + 1 } with ⟨st2, res2, tr⟩
      have := ih (markAccountDeleted account.id now st)
        { res with processed := res.processed + 1
                   successful := res.successful + 1 }
      rw [hpr] at this
      simp only [hpr]
      simp only [List.countP_cons, List.length_cons] at *
      simp only [this.1, this.2.1, this.2.2.1, this.2.2.2]
      refine ⟨by omega, ?_, ?_, ?_⟩ <;> simp <;> omega
    · have hs' : success = false := Bool.eq_false_iff.mpr hs
      subst hs'
      simp only [processResults, Bool.false_eq_true, if_false]
      rcases hpr : processResults now rest (recordCleanupFailure account.id error now st)
          { res with processed := res.processed + 1
                     failed := res.failed + 1
                     errors := res.errors ++ [⟨account.id, account.address, error⟩] }
        with ⟨st2, res2, tr⟩
      have := ih (recordCleanupFailure account.id error now st)
        { res with processed := res.processed + 1
                   failed := res.failed + 1
                   errors := res.errors ++ [⟨account.id, account.address, error⟩] }
      rw [hpr] at this
      simp only [hpr]
      simp only [List.countP_cons, List.length_cons] at *
      simp only [this.1, this.2.1, this.2.2.1, this.2.2.2]
      refine ⟨by omega, ?_, ?_, ?_⟩ <;> simp [List.length_append] <;> omega

/-- Running the batch loop preserves the counter identities and processes
exactly the accounts of the batches. -/
theorem runBatches_preserves (env : SweepEnv) (opts : CleanupOptions) (now : Int) :
    ∀ (chunks : List (List StoredAccount)) (st : Store) (res : CleanupResult),
      res.processed = res.successful + res.failed →
      res.failed = res.errors.length →
      ((runBatches env opts now chunks st res).1.processed =
         (runBatches env opts now chunks st res).1.successful +
         (runBatches env opts now chunks st res).1.failed ∧
       (runBatches env opts now chunks st res).1.failed =
         (runBatches env opts now chunks st res).1.errors.length ∧
       (runBatches env opts now chunks st res).1.processed =
         res.processed + chunks.flatten.length) := by
  intro chunks
  induction chunks with
  | nil =>
    intro st res h1 h2
    exact ⟨h1, h2, by simp [runBatches]⟩
  | cons batch rest ih =>
    intro st res h1 h2
    simp only [runBatches]
    rcases hrb : runBatch env opts now batch st with ⟨st1, outs, trb⟩
    rcases hpr : processResults now outs st1 res with ⟨st2, res1, trc⟩
    rcases hrr : runBatches env opts now rest st2 res1 with ⟨res2, st3, trr⟩
    have houts : outs.length = batch.length := by
      have := runBatch_outs_length env opts now batch st
      rw [hrb] at this
      exact this
    have hspec := processResults_spec now outs st1 res
    rw [hpr] at hspec
    have hsplit : outs.length =
        outs.countP (fun it => it.2.1) + outs.countP (fun it => !it.2.1) := by
      have := List.length_eq_countP_add_countP (fun it => it.2.1) outs
      simpa using this
    have h1' : res1.processed = res1.successful + res1.failed := by
      rw [hspec.1, hspec.2.1, hspec.2.2.1]
      omega
    have h2' : res1.failed = res1.errors.length := by
      rw [hspec.2.2.1, hspec.2.2.2]
      omega
    have hres1p : res1.processed = res.processed + batch.length := by
      rw [hspec.1, houts]
    have := ih st2 res1 h1' h2'
    rw [hrr] at this
    refine ⟨by simpa using this.1, by simpa using this.2.1, ?_⟩
    simp only [List.flatten_cons, List.length_append]
    have := this.2.2
    simp only at this
    omega

/-- C10 (corrected, amended): every sweep that is not aborted by an exception
returns a result with `processed = successful + failed` and
`failed = |errors|`; if it is not skipped either, `processed` equals the
number of candidate accounts the scan produced. -/
theorem sweep_result_invariants (env : SweepEnv) (opts : CleanupOptions)
    (now : Int) (s : SweepState) (hrun : s.isCleanupRunning = false)
    (hsf : env.storageFails = none) (hbs : 0 < opts.batchSize) :
    (runCleanupCycle env opts now s).1.processed =
      (runCleanupCycle env opts now s).1.successful +
      (runCleanupCycle env opts now s).1.failed ∧
    (runCleanupCycle env opts now s).1.failed =
      (runCleanupCycle env opts now s).1.errors.length ∧
    (runCleanupCycle env opts now s).1.processed =
      (sweepCandidates now s.store).length := by
  simp only [runCleanupCycle, hrun, hsf, Bool.false_eq_true, if_false]
  by_cases he : (sweepCandidates now s.store).isEmpty
  · have : sweepCandidates now s.store = [] := List.isEmpty_iff.mp he
    simp [he, this, zeroCleanupResult]
  · rcases hce : cleanupExpiredAccounts env opts now (sweepCandidates now s.store)
        (cleanupOldData now s.store) with ⟨r, st2, tr⟩
    simp only [he, Bool.false_eq_true, if_false, hce]
    have hinv := runBatches_preserves env opts now
      (chunksOf opts.batchSize (sweepCandidates now s.store).length
        (sweepCandidates now s.store))
      (cleanupOldData now s.store) zeroCleanupResult rfl rfl
    rw [show runBatches env opts now
        (chunksOf opts.batchSize (sweepCandidates now s.store).length
          (sweepCandidates now s.store))
        (cleanupOldData now s.store) zeroCleanupResult =
        cleanupExpiredAccounts env opts now (sweepCandidates now s.store)
          (cleanupOldData now s.store) from rfl, hce] at hinv
    have hflat := chunksOf_flatten (α := StoredAccount) hbs
      (sweepCandidates now s.store).length (sweepCandidates now s.store) le_rfl
    rw [hflat] at hinv
    simpa [zeroCleanupResult] using hinv

/-- Witness for C10: a completed sweep over one expired candidate with a
failing remote delete. -/
theorem sweep_result_invariants_witness :
    (runCleanupCycle fxEnvFail DEFAULT_OPTIONS 1000
       { isCleanupRunning := false, store := fxExpiredStore }).1.processed =
      (runCleanupCycle fxEnvFail DEFAULT_OPTIONS 1000
       { isCleanupRunning := false, store := fxExpiredStore }).1.successful +
      (runCleanupCycle fxEnvFail DEFAULT_OPTIONS 1000
       { isCleanupRunning := false, store := fxExpiredStore }).1.failed ∧
    (runCleanupCycle fxEnvFail DEFAULT_OPTIONS 1000
       { isCleanupRunning := false, store := fxExpiredStore }).1.failed =
      (runCleanupCycle fxEnvFail DEFAULT_OPTIONS 1000
       { isCleanupRunning := false, store := fxExpiredStore }).1.errors.length ∧
    (runCleanupCycle fxEnvFail DEFAULT_OPTIONS 1000
       { isCleanupRunning := false, store := fxExpiredStore }).1.processed =
      (sweepCandidates 1000 fxExpiredStore).length :=
  sweep_result_invariants fxEnvFail DEFAULT_OPTIONS 1000
    { isCleanupRunning := false, store := fxExpiredStore } rfl rfl (by decide)

/-! ## C7, amended -/

/-- `find?` returns the unique element satisfying the predicate. -/
theorem find?_eq_some_of_mem_unique {p : α → Bool} {a : α} :
    ∀ {l : List α}, a ∈ l → p a = true → (∀ x ∈ l, p x = true → x = a) →
      l.find? p = some a
  | [], ha, _, _ => absurd ha (List.not_mem_nil a)
  | x :: xs, ha, hp, huniq => by
    by_cases hx : p x = true
    · rw [List.find?_cons_of_pos _ hx]
      exact congrArg some (huniq x (List.mem_cons_self x xs) hx)
    · rw [List.find?_cons_of_neg _ (by simpa using hx)]
      have hax : a ≠ x := fun he => hx (he ▸ hp)
      have ha' : a ∈ xs := by
        rcases List.mem_cons.mp ha with h | h
        · exact absurd h hax
        · exact h
      exact find?_eq_some_of_mem_unique ha' hp
        (fun y hy hpy => huniq y (List.mem_cons_of_mem x hy) hpy)

/-- C7 (corrected, amended): storing an account and retrieving it by id
yields a record with exactly the given field values — the date fields survive
the ISO serialization round trip as the same instants — provided fewer than
`MAX_ACCOUNTS_STORED` other stored records were created at or after the new
record's creation instant (otherwise the retention cap evicts the new
record). -/
theorem storeAccount_roundtrip (account : MailAccount) (password token : String)
    (expiresAt now : Int) (st : Store)
    (hroom : (getStoredAccounts st).countP
        (fun a => decide (now ≤ a.createdAt) && (a.id != account.id))
        < MAX_ACCOUNTS_STORED) :
    getStoredAccount account.id (storeAccount account password token expiresAt now st).2 =
      some { id := account.id, address := account.address, password := password
             token := token, createdAt := now, expiresAt := expiresAt
             deleted := false, lastAccessedAt := now, messageCount := 0
             cleanupAttempts := 0 } := by
  set new : StoredAccount :=
    { id := account.id, address := account.address, password := password
      token := token, createdAt := now, expiresAt := expiresAt
      deleted := false, lastAccessedAt := now, messageCount := 0
      cleanupAttempts := 0 } with hnew
  set filtered := (getStoredAccounts st).filter (fun a => a.id != account.id)
    with hfiltered
  set S := List.insertionSort createdDesc (filtered ++ [new]) with hSdef
  have hres : getStoredAccount account.id
      (storeAccount account password token expiresAt now st).2 =
      (S.take MAX_ACCOUNTS_STORED).find? (fun a => a.id == account.id) := by
    rw [hSdef, hfiltered, hnew]
    simp only [getStoredAccount, storeAccount, getStoredAccounts_addAuditLogEntry,
      getStoredAccounts_saveAccounts]
  have hsorted : List.Sorted createdDesc S := List.sorted_insertionSort _ _
  have hperm : S.Perm (filtered ++ [new]) := List.perm_insertionSort _ _
  have hmemS : new ∈ S :=
    hperm.mem_iff.mpr (List.mem_append_right _ (List.mem_singleton_self new))
  obtain ⟨idx, hidx, hget⟩ := List.getElem_of_mem hmemS
  have hpair := List.pairwise_iff_getElem.mp hsorted
  -- count the entries created at or after `now`
  set p : StoredAccount → Bool := fun a => decide (now ≤ a.createdAt) with hp
  have htake_all : ∀ x ∈ S.take (idx + 1), p x = true := by
    intro x hx
    rcases List.mem_take_iff_getElem.mp hx with ⟨j, hj, hxj⟩
    have hjlt : j < S.length := lt_of_lt_of_le hj (by simp)
    rcases Nat.lt_or_ge j idx with hji | hji
    · have hrel := hpair j idx hjlt hidx hji
      rw [hget] at hrel
      subst hxj
      simpa [p, createdDesc, new] using hrel
    · have hj_eq : j = idx := by omega
      subst hj_eq
      rw [hget] at hxj
      subst hxj
      simp [p, new]
  have hcount_take : (S.take (idx + 1)).countP p = idx + 1 := by
    rw [List.countP_eq_length.mpr htake_all, List.length_take]
    omega
  have hcount_ge : idx + 1 ≤ S.countP p := by
    conv_rhs => rw [← List.take_append_drop (idx + 1) S]
    rw [List.countP_append, hcount_take]
    omega
  have hcount_eq : S.countP p = filtered.countP p + 1 := by
    rw [hperm.countP_eq, List.countP_append]
    simp [p, new]
  have hfilt_count : filtered.countP p =
      (getStoredAccounts st).countP
        (fun a => decide (now ≤ a.createdAt) && (a.id != account.id)) := by
    rw [hfiltered, List.countP_filter]
  have hidx50 : idx < MAX_ACCOUNTS_STORED := by
    rw [hcount_eq, hfilt_count] at hcount_ge
    omega
  have hmemtake : new ∈ S.take MAX_ACCOUNTS_STORED :=
    List.mem_take_iff_getElem.mpr ⟨idx, by simp [lt_min_iff]; omega, hget⟩
  have huniq : ∀ x ∈ S.take MAX_ACCOUNTS_STORED,
      (x.id == account.id) = true → x = new := by
    intro x hx hxid
    have hxS : x ∈ S := List.mem_of_mem_take hx
    rcases List.mem_append.mp (hperm.mem_iff.mp hxS) with hf | hn
    · have := List.of_mem_filter hf
      rw [beq_iff_eq] at hxid
      simp [hxid] at this
    · exact List.mem_singleton.mp hn
  rw [hres]
  exact find?_eq_some_of_mem_unique hmemtake (by simp [new]) huniq

/-- Witness for C7: storing into the empty store and reading back. -/
theorem storeAccount_roundtrip_witness :
    getStoredAccount "x"
      (storeAccount (fxMail "x") "pw" "tok" 999 1 fxEmptyStore).2 =
      some { id := "x", address := "x@example.test", password := "pw"
             token := "tok", createdAt := 1, expiresAt := 999
             deleted := false, lastAccessedAt := 1, messageCount := 0
             cleanupAttempts := 0 } :=
  storeAccount_roundtrip (fxMail "x") "pw" "tok" 999 1 fxEmptyStore (by decide)

/-! ## C2, amended

The retry loop of `cleanupSingleAccount` never reads the store, so its
outcome and its trace depend only on the environment, the account id, the
attempt number and the budget.  The two functions below characterize those
projections and drive the trace-counting lemmas. -/

/-- Number of `deleteAccount` calls the retry loop makes: one per attempt,
stopping at the first attempt that resolves. -/
def attemptsUsed (env : SweepEnv) (i : String) : Nat → Nat → Nat
  | _, 0 => 0
  | attempt, r + 1 =>
    match env.deleteOutcome i attempt with
    | none => 1
    | some _ => 1 + attemptsUsed env i (attempt + 1) r

/-- Success flag and final error of the retry loop. -/
def attemptResult (env : SweepEnv) (i : String) : Nat → Nat → String → Bool × String
  | _, 0, lastError => (false, lastError)
  | attempt, r + 1, _ =>
    match env.deleteOutcome i attempt with
    | none => (true, "")
    | some err => attemptResult env i (attempt + 1) r err

/-- The retry loop returns the characterized outcome and emits exactly one
`deleteAccount` call per attempt used, independent of the store. -/
theorem attemptDeletions_spec (env : SweepEnv) (a : StoredAccount) (now : Int) :
    ∀ (r attempt : Nat) (lastError : String) (st : Store),
      (attemptDeletions env a now attempt r lastError st).1 =
        (attemptResult env a.id attempt r lastError).1 ∧
      (attemptDeletions env a now attempt r lastError st).2.1 =
        (attemptResult env a.id attempt r lastError).2 ∧
      (attemptDeletions env a now attempt r lastError st).2.2.2 =
        List.replicate (attemptsUsed env a.id attempt r) (Event.deleteCall a.id) := by
  intro r
  induction r with
  | zero =>
    intro attempt lastError st
    simp [attemptDeletions, attemptResult, attemptsUsed]
  | succ n ih =>
    intro attempt lastError st
    simp only [attemptDeletions, attemptResult, attemptsUsed]
    cases houtcome : env.deleteOutcome a.id attempt with
    | none => simp
    | some err =>
      rcases hrec : attemptDeletions env a now (attempt + 1) n err
          (incrementCleanupAttempts a.id now st) with ⟨s, e, st2, tr⟩
      have hih := ih (attempt + 1) err (incrementCleanupAttempts a.id now st)
      rw [hrec] at hih
      simp only [hrec]
      refine ⟨hih.1, hih.2.1, ?_⟩
      have htr : tr = List.replicate (attemptsUsed env a.id (attempt + 1) n)
          (Event.deleteCall a.id) := hih.2.2
      rw [htr, Nat.add_comm 1 _]
      exact (List.replicate_succ _ _).symm

/-- The retry loop makes at least one call when the budget is positive. -/
theorem attemptsUsed_pos (env : SweepEnv) (i : String) (r attempt : Nat)
    (hr : 0 < r) : 1 ≤ attemptsUsed env i attempt r := by
  cases r with
  | zero => omega
  | succ n =>
    cases h : env.deleteOutcome i attempt <;> simp only [attemptsUsed, h] <;> omega

/-- The retry loop never exceeds its budget. -/
theorem attemptsUsed_le (env : SweepEnv) (i : String) :
    ∀ (r attempt : Nat), attemptsUsed env i attempt r ≤ r := by
  intro r
  induction r with
  | zero => intro attempt; simp [attemptsUsed]
  | succ n ih =>
    intro attempt
    cases h : env.deleteOutcome i attempt with
    | none => simp only [attemptsUsed, h]; omega
    | some err =>
      have := ih (attempt + 1)
      simp only [attemptsUsed, h]
      omega

/-- A first attempt that resolves makes the loop stop after one call. -/
theorem attemptsUsed_first_success (env : SweepEnv) (i : String) (r : Nat)
    (h : env.deleteOutcome i 1 = none) : attemptsUsed env i 1 (r + 1) = 1 := by
  simp [attemptsUsed, h]

/-- A batch run returns the characterized per-account outcomes and a trace
that is the concatenation of the per-account call bursts. -/
theorem runBatch_spec (env : SweepEnv) (opts : CleanupOptions) (now : Int) :
    ∀ (batch : List StoredAccount) (st : Store),
      (runBatch env opts now batch st).2.1 =
        batch.map (fun b => (b, (attemptResult env b.id 1 opts.maxRetries "").1,
                                (attemptResult env b.id 1 opts.maxRetries "").2)) ∧
      (runBatch env opts now batch st).2.2 =
        (batch.map (fun b => List.replicate (attemptsUsed env b.id 1 opts.maxRetries)
          (Event.deleteCall b.id))).flatten := by
  intro batch
  induction batch with
  | nil => intro st; simp [runBatch]
  | cons a rest ih =>
    intro st
    simp only [runBatch]
    rcases hsa : cleanupSingleAccount env opts now a st with ⟨s, e, st1, tra⟩
    rcases hrb : runBatch env opts now rest st1 with ⟨st2, outs, tr⟩
    have hspec := attemptDeletions_spec env a now opts.maxRetries 1 "" st
    rw [show attemptDeletions env a now 1 opts.maxRetries "" st =
        cleanupSingleAccount env opts now a st from rfl, hsa] at hspec
    have hih := ih st1
    rw [hrb] at hih
    have houts : outs = rest.map (fun b =>
        (b, (attemptResult env b.id 1 opts.maxRetries "").1,
         (attemptResult env b.id 1 opts.maxRetries "").2)) := hih.1
    have htr : tr = (rest.map (fun b =>
        List.replicate (attemptsUsed env b.id 1 opts.maxRetries)
          (Event.deleteCall b.id))).flatten := hih.2
    have hs1 : s = (attemptResult env a.id 1 opts.maxRetries "").1 := hspec.1
    have he1 : e = (attemptResult env a.id 1 opts.maxRetries "").2 := hspec.2.1
    have htra : tra = List.replicate (attemptsUsed env a.id 1 opts.maxRetries)
        (Event.deleteCall a.id) := hspec.2.2
    subst houts htr hs1 he1 htra
    simp [hsa, hrb]

/-- The result-processing pass emits exactly one outcome event per settled
item. -/
theorem processResults_trace (now : Int) :
    ∀ (items : List (StoredAccount × Bool × String)) (st : Store)
      (res : CleanupResult),
      (processResults now items st res).2.2 =
        items.map (fun it => if it.2.1 then Event.markDeleted it.1.id
                             else Event.failureRecorded it.1.id it.2.2) := by
  intro items
  induction items with
  | nil => intro st res; rfl
  | cons item rest ih =>
    intro st res
    rcases item with ⟨account, success, error⟩
    by_cases hs : success
    · subst hs
      simp only [processResults, if_true, List.map_cons]
      rcases hpr : processResults now rest (markAccountDeleted account.id now st)
          { res with processed := res.processed + 1
                     successful := res.successful + 1 } with ⟨st2, res2, tr⟩
      have := ih (markAccountDeleted account.id now st)
        { res with processed := res.processed + 1
                   successful := res.successful + 1 }
      rw [hpr] at this
      have htr : tr = List.map (fun it => if it.2.1 = true then Event.markDeleted it.1.id
          else Event.failureRecorded it.1.id it.2.2) rest := this
      simp [hpr, htr]
    · have hs' : success = false := Bool.eq_false_iff.mpr hs
      subst hs'
      simp only [processResults, Bool.false_eq_true, if_false, List.map_cons]
      rcases hpr : processResults now rest (recordCleanupFailure account.id error now st)
          { res with processed := res.processed + 1
                     failed := res.failed + 1
                     errors := res.errors ++ [⟨account.id, account.address, error⟩] }
        with ⟨st2, res2, tr⟩
      have := ih (recordCleanupFailure account.id error now st)
        { res with processed := res.processed + 1
                   failed := res.failed + 1
                   errors := res.errors ++ [⟨account.id, account.address, error⟩] }
      rw [hpr] at this
      have htr : tr = List.map (fun it => if it.2.1 = true then Event.markDeleted it.1.id
          else Event.failureRecorded it.1.id it.2.2) rest := this
      simp [hpr, htr]

/-- Counting delete calls distributes over trace concatenation. -/
theorem countDeleteCalls_append (i : String) (l1 l2 : List Event) :
    countDeleteCalls i (l1 ++ l2) = countDeleteCalls i l1 + countDeleteCalls i l2 :=
  List.countP_append _ _ _

/-- Counting outcome events distributes over trace concatenation. -/
theorem countOutcomes_append (i : String) (l1 l2 : List Event) :
    countOutcomes i (l1 ++ l2) = countOutcomes i l1 + countOutcomes i l2 :=
  List.countP_append _ _ _

/-- Delete calls in one batch trace: the per-account bursts, summed. -/
theorem countDeleteCalls_batch_trace (env : SweepEnv) (opts : CleanupOptions)
    (i : String) :
    ∀ (batch : List StoredAccount),
      countDeleteCalls i ((batch.map (fun b =>
          List.replicate (attemptsUsed env b.id 1 opts.maxRetries)
            (Event.deleteCall b.id))).flatten) =
        (batch.map (fun b => if b.id == i
            then attemptsUsed env b.id 1 opts.maxRetries else 0)).sum := by
  intro batch
  induction batch with
  | nil => rfl
  | cons b rest ih =>
    simp only [List.map_cons, List.flatten_cons, List.sum_cons]
    unfold countDeleteCalls at ih ⊢
    rw [List.countP_append, ih, List.countP_replicate]

/-- A batch trace records no outcomes. -/
theorem countOutcomes_batch_trace (env : SweepEnv) (opts : CleanupOptions)
    (i : String) :
    ∀ (batch : List StoredAccount),
      countOutcomes i ((batch.map (fun b =>
          List.replicate (attemptsUsed env b.id 1 opts.maxRetries)
            (Event.deleteCall b.id))).flatten) = 0 := by
  intro batch
  induction batch with
  | nil => rfl
  | cons b rest ih =>
    simp only [List.map_cons, List.flatten_cons]
    unfold countOutcomes at ih ⊢
    rw [List.countP_append, ih, List.countP_replicate]
    simp

/-- Outcome events carry their account id: one per processed item. -/
theorem countOutcomes_outcome_events (i : String) :
    ∀ (items : List (StoredAccount × Bool × String)),
      countOutcomes i (items.map (fun it => if it.2.1 then Event.markDeleted it.1.id
                                            else Event.failureRecorded it.1.id it.2.2)) =
        (items.map (fun it => if it.1.id == i then (1 : Nat) else 0)).sum := by
  intro items
  induction items with
  | nil => rfl
  | cons it rest ih =>
    rcases it with ⟨b, success, err⟩
    unfold countOutcomes at ih ⊢
    cases success <;>
      simp only [List.map_cons, List.countP_cons, List.sum_cons, if_true,
        Bool.false_eq_true, if_false, ih] <;>
      exact Nat.add_comm _ _

/-- Outcome events are never delete calls. -/
theorem countDeleteCalls_outcome_events (i : String) :
    ∀ (items : List (StoredAccount × Bool × String)),
      countDeleteCalls i (items.map (fun it => if it.2.1 then Event.markDeleted it.1.id
                                               else Event.failureRecorded it.1.id it.2.2)) = 0 := by
  intro items
  induction items with
  | nil => rfl
  | cons it rest ih =>
    rcases it with ⟨b, success, err⟩
    unfold countDeleteCalls at ih ⊢
    cases success <;> simp only [List.map_cons, List.countP_cons] <;> simp [ih]

/-- Trace counts over the whole batch loop. -/
theorem runBatches_counts (env : SweepEnv) (opts : CleanupOptions) (now : Int)
    (i : String) :
    ∀ (chunks : List (List StoredAccount)) (st : Store) (res : CleanupResult),
      countDeleteCalls i (runBatches env opts now chunks st res).2.2 =
        (chunks.flatten.map (fun b => if b.id == i
            then attemptsUsed env b.id 1 opts.maxRetries else 0)).sum ∧
      countOutcomes i (runBatches env opts now chunks st res).2.2 =
        (chunks.flatten.map (fun b => if b.id == i then (1 : Nat) else 0)).sum := by
  intro chunks
  induction chunks with
  | nil => intro st res; exact ⟨rfl, rfl⟩
  | cons batch rest ih =>
    intro st res
    simp only [runBatches]
    rcases hrb : runBatch env opts now batch st with ⟨st1, outs, trb⟩
    rcases hpr : processResults now outs st1 res with ⟨st2, res1, trc⟩
    rcases hrr : runBatches env opts now rest st2 res1 with ⟨res2, st3, trr⟩
    have hspec := runBatch_spec env opts now batch st
    rw [hrb] at hspec
    have houts : outs = batch.map (fun b =>
        (b, (attemptResult env b.id 1 opts.maxRetries "").1,
         (attemptResult env b.id 1 opts.maxRetries "").2)) := hspec.1
    have htrb : trb = (batch.map (fun b =>
        List.replicate (attemptsUsed env b.id 1 opts.maxRetries)
          (Event.deleteCall b.id))).flatten := hspec.2
    have htrc : trc = outs.map (fun it => if it.2.1 then Event.markDeleted it.1.id
        else Event.failureRecorded it.1.id it.2.2) := by
      have := processResults_trace now outs st1 res
      rw [hpr] at this
      exact this
    have hihr := ih st2 res1
    rw [hrr] at hihr
    have htrr1 : countDeleteCalls i trr = (rest.flatten.map (fun b => if b.id == i
        then attemptsUsed env b.id 1 opts.maxRetries else 0)).sum := hihr.1
    have htrr2 : countOutcomes i trr = (rest.flatten.map (fun b => if b.id == i
        then (1 : Nat) else 0)).sum := hihr.2
    simp only [hrb, hpr, hrr, List.flatten_cons, List.map_append, List.sum_append]
    constructor
    · rw [countDeleteCalls_append, countDeleteCalls_append, htrb,
        countDeleteCalls_batch_trace env opts i batch, htrc,
        countDeleteCalls_outcome_events, htrr1]
      omega
    · rw [countOutcomes_append, countOutcomes_append, htrb,
        countOutcomes_batch_trace env opts i batch, htrc,
        countOutcomes_outcome_events, htrr2, houts, List.map_map]
      simp only [Function.comp_def]
      omega

/-- When the account ids are distinct, the id-filtered sum collapses to the
single matching account's weight. -/
theorem sum_ite_single (g : String → Nat) :
    ∀ (l : List StoredAccount) (a : StoredAccount),
      (l.map (fun b => b.id)).Nodup → a ∈ l →
      (l.map (fun b => if b.id == a.id then g b.id else 0)).sum = g a.id := by
  intro l
  induction l with
  | nil => intro a _ ha; cases ha
  | cons x xs ih =>
    intro a hnd ha
    simp only [List.map_cons, List.nodup_cons] at hnd
    obtain ⟨hx_not, hnd'⟩ := hnd
    by_cases hxa : x.id = a.id
    · have hrest : ∀ b ∈ xs, (if b.id == a.id then g b.id else 0) = 0 := by
        intro b hb
        have hbne : b.id ≠ x.id := fun he =>
          hx_not (he ▸ List.mem_map_of_mem (fun c => c.id) hb)
        have : (b.id == a.id) = false := by
          rw [beq_eq_false_iff_ne]
          rw [← hxa] at *
          exact hbne
        simp [this]
      have hzero : (xs.map (fun b => if b.id == a.id then g b.id else 0)).sum = 0 := by
        apply List.sum_eq_zero
        intro y hy
        rcases List.mem_map.mp hy with ⟨b, hb, rfl⟩
        exact hrest b hb
      simp only [List.map_cons, List.sum_cons, hzero]
      simp [hxa]
    · have ha' : a ∈ xs := by
        rcases List.mem_cons.mp ha with rfl | h
        · exact absurd rfl hxa
        · exact h
      have hhead : (x.id == a.id) = false := beq_eq_false_iff_ne.mpr hxa
      simp only [List.map_cons, List.sum_cons, hhead, if_false]
      simpa using ih a hnd' ha'

/-- The fixed storage-traffic events of a sweep contain no delete calls and
no outcome records. -/
theorem count_fixed_events (i : String) :
    countDeleteCalls i cleanupOldDataEvents = 0 ∧
    countDeleteCalls i [Event.storageRead ACCOUNTS_KEY] = 0 ∧
    countDeleteCalls i statsEvents = 0 ∧
    countOutcomes i cleanupOldDataEvents = 0 ∧
    countOutcomes i [Event.storageRead ACCOUNTS_KEY] = 0 ∧
    countOutcomes i statsEvents = 0 :=
  ⟨rfl, rfl, rfl, rfl, rfl, rfl⟩

/-- C2 (corrected, amended): for every candidate account of a completed
sweep (distinct candidate ids), the sweep makes between 1 and `maxRetries`
remote delete calls for that account — exactly one per retry attempt, and
exactly one in total when the first attempt resolves — and records exactly
one outcome for it (marked deleted on success, a cleanup failure on
exhaustion). -/
theorem deletion_attempts_per_cycle (env : SweepEnv) (opts : CleanupOptions)
    (now : Int) (s : SweepState) (hrun : s.isCleanupRunning = false)
    (hsf : env.storageFails = none) (hbs : 0 < opts.batchSize)
    (hmr : 0 < opts.maxRetries)
    (hnd : ((sweepCandidates now s.store).map (fun a => a.id)).Nodup)
    (a : StoredAccount) (ha : a ∈ sweepCandidates now s.store) :
    (1 ≤ countDeleteCalls a.id (runCleanupCycle env opts now s).2.2 ∧
     countDeleteCalls a.id (runCleanupCycle env opts now s).2.2 ≤ opts.maxRetries) ∧
    (env.deleteOutcome a.id 1 = none →
      countDeleteCalls a.id (runCleanupCycle env opts now s).2.2 = 1) ∧
    countOutcomes a.id (runCleanupCycle env opts now s).2.2 = 1 := by
  have hne : (sweepCandidates now s.store).isEmpty = false := by
    simp only [List.isEmpty_eq_false_iff_exists_mem]
    exact ⟨a, ha⟩
  simp only [runCleanupCycle, hrun, hsf, Bool.false_eq_true, if_false, hne]
  rcases hce : cleanupExpiredAccounts env opts now (sweepCandidates now s.store)
      (cleanupOldData now s.store) with ⟨r, st2, trS⟩
  have hcounts := runBatches_counts env opts now a.id
    (chunksOf opts.batchSize (sweepCandidates now s.store).length
      (sweepCandidates now s.store))
    (cleanupOldData now s.store) zeroCleanupResult
  rw [show runBatches env opts now
      (chunksOf opts.batchSize (sweepCandidates now s.store).length
        (sweepCandidates now s.store))
      (cleanupOldData now s.store) zeroCleanupResult =
      cleanupExpiredAccounts env opts now (sweepCandidates now s.store)
        (cleanupOldData now s.store) from rfl, hce] at hcounts
  rw [chunksOf_flatten hbs _ _ le_rfl] at hcounts
  have hdel : countDeleteCalls a.id trS = attemptsUsed env a.id 1 opts.maxRetries := by
    have := hcounts.1
    rw [sum_ite_single (fun j => attemptsUsed env j 1 opts.maxRetries)
      (sweepCandidates now s.store) a hnd ha] at this
    exact this
  have hout : countOutcomes a.id trS = 1 := by
    have := hcounts.2
    rw [sum_ite_single (fun _ => 1) (sweepCandidates now s.store) a hnd ha] at this
    exact this
  have hfixed := count_fixed_events a.id
  simp only [hce, countDeleteCalls_append, countOutcomes_append, hfixed.1,
    hfixed.2.1, hfixed.2.2.1, hfixed.2.2.2.1, hfixed.2.2.2.2.1,
    hfixed.2.2.2.2.2, hdel, hout]
  refine ⟨⟨?_, ?_⟩, ?_, trivial⟩
  · have := attemptsUsed_pos env a.id opts.maxRetries 1 hmr
    omega
  · have := attemptsUsed_le env a.id opts.maxRetries 1
    omega
  · intro hfirst
    obtain ⟨n, hn⟩ := Nat.exists_eq_succ_of_ne_zero (Nat.pos_iff_ne_zero.mp hmr)
    rw [hn]
    simp only [Nat.succ_eq_add_one]
    have := attemptsUsed_first_success env a.id n hfirst
    omega

/-- Witness for C2: one expired candidate with a remote delete that fails on
every attempt. -/
theorem deletion_attempts_per_cycle_witness :
    (1 ≤ countDeleteCalls "a" (runCleanupCycle fxEnvFail DEFAULT_OPTIONS 1000
         { isCleanupRunning := false, store := fxExpiredStore }).2.2 ∧
     countDeleteCalls "a" (runCleanupCycle fxEnvFail DEFAULT_OPTIONS 1000
         { isCleanupRunning := false, store := fxExpiredStore }).2.2 ≤
       DEFAULT_OPTIONS.maxRetries) ∧
    (fxEnvFail.deleteOutcome "a" 1 = none →
      countDeleteCalls "a" (runCleanupCycle fxEnvFail DEFAULT_OPTIONS 1000
          { isCleanupRunning := false, store := fxExpiredStore }).2.2 = 1) ∧
    countOutcomes "a" (runCleanupCycle fxEnvFail DEFAULT_OPTIONS 1000
        { isCleanupRunning := false, store := fxExpiredStore }).2.2 = 1 :=
  deletion_attempts_per_cycle fxEnvFail DEFAULT_OPTIONS 1000
    { isCleanupRunning := false, store := fxExpiredStore } rfl rfl
    (by decide) (by decide) (by decide) (fxAccount "a" 1000 500 false) (by decide)
